import Mathlib

set_option maxRecDepth 20000

/-!
Verification development for the MangaNano batch manga-translation pipeline.

The TypeScript source is shallowly embedded: the remote Gemini service is
abstracted by an `Env` oracle giving the outcome of each remote call, and the
pure control flow of `translateMangaImage`, `regenerateMangaImage`, the batch
loop `processImages`, the regenerate click handler, and the ZIP entry naming
are translated into executable Lean definitions.
-/

/-- Item lifecycle states (`MangaImage.status` in `types.ts`). -/
inductive Status where
  | idle
  | processing
  | completed
  | error
deriving DecidableEq, Repr

/-- The uploaded file: name, MIME type, and the base64 payload produced by
`fileToBase64`. -/
structure MFile where
  name : String
  fileType : String
  content : String
deriving DecidableEq, Repr

/-- One queue entry (`MangaImage` in `types.ts`, with the `ocrText` field used
by the App in `part_004`). -/
structure MangaImage where
  id : Nat
  file : MFile
  previewUrl : String
  translatedUrl : Option String
  ocrText : Option String
  status : Status
  error : Option String
deriving DecidableEq, Repr

/-- One part of a Gemini response: optional text and optional inline image
data (`part.text` / `part.inlineData.data`). -/
structure RespPart where
  text : Option String
  inlineData : Option String
deriving DecidableEq, Repr

/-- One candidate of a Gemini response (`candidates[i].content.parts`). -/
structure Candidate where
  parts : List RespPart
deriving DecidableEq, Repr

/-- A Gemini response: a list of candidates. -/
structure GenResponse where
  candidates : List Candidate
deriving DecidableEq, Repr

/-- Outcome of one remote `generateContent` invocation: either a response, or
a thrown error carrying an optional `error.message` string. -/
inductive CallResult where
  | ok (resp : GenResponse)
  | err (message : Option String)
deriving DecidableEq, Repr

/-- Oracle for the remote service during one item's processing: the outcome of
the recognition (OCR) call and the outcome of the inpainting call. -/
structure Env where
  ocrResult : CallResult
  inpaintResult : CallResult
deriving DecidableEq, Repr

/-- Failures propagated out of the service layer: the sentinel `API_KEY_ERROR`
or an ordinary error message. -/
inductive TransError where
  | apiKeyError
  | itemError (message : String)
deriving DecidableEq, Repr

/-- Successful result of `translateMangaImage`: the data URL of the output
image and the recognition text. -/
structure TranslateOk where
  imageUrl : String
  ocrText : String
deriving DecidableEq, Repr

/-- A remote call recorded in an instrumentation trace. -/
inductive ServiceCall where
  | ocr (prompt : String)
  | inpaint (prompt : String)
deriving DecidableEq, Repr

instance {ε α : Type} [DecidableEq ε] [DecidableEq α] : DecidableEq (Except ε α) := fun a b =>
  match a, b with
  | .ok x, .ok y =>
    if h : x = y then .isTrue (by rw [h]) else .isFalse (fun hc => h (Except.ok.inj hc))
  | .error x, .error y =>
    if h : x = y then .isTrue (by rw [h]) else .isFalse (fun hc => h (Except.error.inj hc))
  | .ok _, .error _ => .isFalse (fun hc => Except.noConfusion hc)
  | .error _, .ok _ => .isFalse (fun hc => Except.noConfusion hc)

/-- JS `s.startsWith(pat)` on character lists. -/
def startsWithChars : List Char → List Char → Bool
  | _, [] => true
  | [], _ :: _ => false
  | a :: s, b :: p => a == b && startsWithChars s p

/-- JS `s.includes(pat)` on character lists. -/
def containsChars : List Char → List Char → Bool
  | s, pat =>
    startsWithChars s pat ||
      match s with
      | [] => false
      | _ :: rest => containsChars rest pat

/-- JS `message.includes(pat)` for strings. -/
def msgContains (s pat : String) : Bool :=
  containsChars s.data pat.data

/-- The fixed lexical auth-failure signal matched by the service layer. -/
def AUTH_SIGNAL : String := "Requested entity was not found"

/-- Fallback message of the catch block of `translateMangaImage`. -/
def fallbackTranslateMsg : String := "Failed to translate image."

/-- Fallback message of the catch block of `regenerateMangaImage`. -/
def fallbackRegenerateMsg : String := "Failed to regenerate image."

/-- Message thrown when the inpainting response has no candidates. -/
def noResponseMsg : String := "No response generated from the model."

/-- Message thrown when no part of the inpainting response is an image. -/
def noImagePartMsg : String := "The model did not return an image part."

/-- The catch block shared by both service functions: `API_KEY_ERROR` when the
error message contains the fixed signal, otherwise
`new Error(error.message || fallback)`. -/
def classifyErr (message : Option String) (fallback : String) : TransError :=
  let hasSignal :=
    match message with
    | some m => msgContains m AUTH_SIGNAL
    | none => false
  if hasSignal then TransError.apiKeyError
  else
    TransError.itemError
      (match message with
       | some m => if m ≠ "" then m else fallback
       | none => fallback)

/-- `targetLanguage === "Chinese" || targetLanguage === "中文"`. -/
def isChinese (targetLanguage : String) : Bool :=
  targetLanguage == "Chinese" || targetLanguage == "中文"

/-- Drop leading whitespace from a character list. -/
def dropLeadingWs : List Char → List Char
  | [] => []
  | c :: r => if c.isWhitespace then dropLeadingWs r else c :: r

/-- JS `s.trim()`: strip whitespace from both ends. -/
def jsTrim (s : String) : String :=
  String.mk ((dropLeadingWs (dropLeadingWs s.data).reverse).reverse)

/-- The OCR prompt of `translateMangaImage`, including the optional trimmed
global context appended when non-empty. -/
def ocrTextPrompt (targetLanguage : String) (globalPrompt : Option String) : String :=
  let promptContext : String :=
    match globalPrompt with
    | some g => jsTrim g
    | none => ""
  if isChinese targetLanguage then
    "识别这页漫画中的日文文本，并翻译成中文。输出格式：[位置] 原文 -> 译文"
      ++ (if promptContext ≠ "" then "\n\n可参考的上下文：\n" ++ promptContext else "")
  else
    "Identify all text in this manga page and provide the translation in "
      ++ targetLanguage ++ ". Format: \"[Position] Original -> Translation\""
      ++ (if promptContext ≠ "" then "\n\nContext you can rely on:\n" ++ promptContext else "")

/-- The fixed Chinese inpainting instruction. -/
def zhPrompt : String := "把图中的日文翻译为中文，不要改变其他内容以及字体。"

/-- The templated English inpainting instruction of `translateMangaImage`
(note the trailing spaces before the line breaks, as in the source). -/
def translateEnBase (targetLanguage : String) : String :=
  "Translate all text in this manga page to " ++ targetLanguage ++ ". \n"
    ++ "  Keep the original artwork, character designs, and background exactly the same. \n"
    ++ "  Replace the text inside the speech bubbles, captions, and SFX with natural "
    ++ targetLanguage ++ " translation. \n"
    ++ "  Maintain the typography style and font feel of the original manga. \n"
    ++ "  Return only the updated image."

/-- The templated English inpainting instruction of `regenerateMangaImage`
(no trailing spaces in this variant). -/
def regenEnBase (targetLanguage : String) : String :=
  "Translate all text in this manga page to " ++ targetLanguage ++ ".\n"
    ++ "  Keep the original artwork, character designs, and background exactly the same.\n"
    ++ "  Replace the text inside the speech bubbles, captions, and SFX with natural "
    ++ targetLanguage ++ " translation.\n"
    ++ "  Maintain the typography style and font feel of the original manga.\n"
    ++ "  Return only the updated image."

/-- Prompt construction of `translateMangaImage`: English template, reference
listing appended when non-empty, then overwritten by the Chinese instruction
(again appending the reference) for a Chinese target. -/
def buildTranslatePrompt (targetLanguage detectedText : String) : String :=
  let prompt := translateEnBase targetLanguage
  let prompt :=
    if detectedText ≠ "" then prompt ++ "\n\nReference Translations:\n" ++ detectedText
    else prompt
  if isChinese targetLanguage then
    if detectedText ≠ "" then zhPrompt ++ "\n\n参考译文:\n" ++ detectedText else zhPrompt
  else prompt

/-- Prompt construction of `regenerateMangaImage`, with the user-edited
reference text in place of the detected text. -/
def buildRegenPrompt (targetLanguage referenceText : String) : String :=
  let prompt := regenEnBase targetLanguage
  let prompt :=
    if referenceText ≠ "" then prompt ++ "\n\nReference Translations:\n" ++ referenceText
    else prompt
  if isChinese targetLanguage then
    if referenceText ≠ "" then zhPrompt ++ "\n\n参考译文:\n" ++ referenceText else zhPrompt
  else prompt

/-- Concatenation of the `text` fields of the first candidate's parts
(`if (part.text) detectedText += part.text`). -/
def collectText (r : GenResponse) : String :=
  match r.candidates.head? with
  | some c =>
      c.parts.foldl
        (fun acc p =>
          match p.text with
          | some t => acc ++ t
          | none => acc) ""
  | none => ""

/-- The detected text after the best-effort OCR step: collected from a
successful response, empty when the call threw (the failure is swallowed). -/
def detectedTextOf (ocrResult : CallResult) : String :=
  match ocrResult with
  | .ok resp => collectText resp
  | .err _ => ""

/-- First part carrying inline image data, if any. -/
def findInline : List RespPart → Option String
  | [] => none
  | p :: rest =>
    match p.inlineData with
    | some d => some d
    | none => findInline rest

/-- The returned data URL: `data:MIME;base64,DATA`. -/
def dataUrl (mimeType d : String) : String :=
  "data:" ++ mimeType ++ ";base64," ++ d

/-- The try/catch core around the inpainting call: empty candidate list and
missing image part are thrown and classified by the same catch block as a
failure of the call itself. -/
def inpaintStep (mimeType : String) (r : CallResult) (fallback : String) :
    Except TransError String :=
  match r with
  | .err m => .error (classifyErr m fallback)
  | .ok resp =>
    match resp.candidates.head? with
    | none => .error (classifyErr (some noResponseMsg) fallback)
    | some c =>
      match findInline c.parts with
      | some d => .ok (dataUrl mimeType d)
      | none => .error (classifyErr (some noImagePartMsg) fallback)

/-- Image-payload extraction used in specifications: `some d` exactly when the
inpainting call succeeds with an image part. -/
def inpaintOkData (r : CallResult) : Option String :=
  match r with
  | .err _ => none
  | .ok resp =>
    match resp.candidates.head? with
    | none => none
    | some c => findInline c.parts

/-- `translateMangaImage` from the service module: best-effort OCR whose
failure is swallowed, prompt construction, inpainting call, classification of
failures.  The second component records the remote calls made, in order. -/
def translateMangaImage (mimeType targetLanguage : String) (globalPrompt : Option String)
    (env : Env) : Except TransError TranslateOk × List ServiceCall :=
  let detectedText := detectedTextOf env.ocrResult
  let calls := [ServiceCall.ocr (ocrTextPrompt targetLanguage globalPrompt),
                ServiceCall.inpaint (buildTranslatePrompt targetLanguage detectedText)]
  match inpaintStep mimeType env.inpaintResult fallbackTranslateMsg with
  | .ok url => (.ok { imageUrl := url, ocrText := detectedText }, calls)
  | .error e => (.error e, calls)

/-- `regenerateMangaImage` from the service module: a single inpainting call
with the user-edited reference text; no recognition call is made. -/
def regenerateMangaImage (mimeType targetLanguage referenceText : String) (env : Env) :
    Except TransError String × List ServiceCall :=
  (inpaintStep mimeType env.inpaintResult fallbackRegenerateMsg,
   [ServiceCall.inpaint (buildRegenPrompt targetLanguage referenceText)])

example :
    translateMangaImage "image/png" "English" none ⟨.err none, .ok ⟨[⟨[⟨none, some "XYZ"⟩]⟩]⟩⟩
      = (.ok ⟨"data:image/png;base64,XYZ", ""⟩,
         [ServiceCall.ocr (ocrTextPrompt "English" none),
          ServiceCall.inpaint (buildTranslatePrompt "English" "")]) := by decide

example :
    (translateMangaImage "image/png" "English" none
        ⟨.ok ⟨[⟨[⟨some "T1", none⟩]⟩]⟩, .err (some "xx Requested entity was not found yy")⟩).1
      = .error .apiKeyError := by decide

example :
    (regenerateMangaImage "image/png" "French" "R" ⟨.err none, .ok ⟨[]⟩⟩).1
      = .error (.itemError noResponseMsg) := by decide

/-- `setImages(prev => prev.map(item => item.id === id ? f(item) : item))`. -/
def updateById (l : List MangaImage) (i : Nat) (f : MangaImage → MangaImage) :
    List MangaImage :=
  l.map fun it => if it.id = i then f it else it

/-- The `status: 'processing'` update. -/
def toProcessing (it : MangaImage) : MangaImage :=
  { it with status := Status.processing }

/-- The success update of the batch loop: `status: 'completed'`, new
`translatedUrl` and `ocrText` (the `error` field is not cleared). -/
def toCompleted (out : TranslateOk) (it : MangaImage) : MangaImage :=
  { it with
    status := Status.completed
    translatedUrl := some out.imageUrl
    ocrText := some out.ocrText }

/-- The failure update: `status: 'error'` with the caught message (the
`translatedUrl` field is not cleared). -/
def toErrored (msg : String) (it : MangaImage) : MangaImage :=
  { it with status := Status.error, error := some msg }

/-- The success update of the regenerate handler:
`ocrText: editingText || it.ocrText`. -/
def regenCompleted (newUrl editingText : String) (it : MangaImage) : MangaImage :=
  { it with
    status := Status.completed
    translatedUrl := some newUrl
    ocrText := if editingText ≠ "" then some editingText else it.ocrText }

/-- The remote calls of one `translateMangaImage` invocation, tagged with the
item's id. -/
def transCalls (lang : String) (img : MangaImage) (env : Env) : List (Nat × ServiceCall) :=
  ((translateMangaImage img.file.fileType lang none env).2).map fun c => (img.id, c)

/-- The loop body of `processImages`: iterate the snapshot, skip completed
items, mark processing, call `translateMangaImage` — with NO `globalPrompt`
argument, exactly as at the call site in the source — then either complete the
item, stop the whole batch on `API_KEY_ERROR`, or mark the item errored and
continue.  Returns the updated queue, whether the auth failure path was taken,
and the trace of remote calls. -/
def runLoop (lang : String) :
    List (MangaImage × Env) → List MangaImage →
      List MangaImage × Bool × List (Nat × ServiceCall)
  | [], cur => (cur, false, [])
  | (img, env) :: rest, cur =>
    if img.status = Status.completed then
      runLoop lang rest cur
    else
      let cur1 := updateById cur img.id toProcessing
      match (translateMangaImage img.file.fileType lang none env).1 with
      | .ok out =>
          let r := runLoop lang rest (updateById cur1 img.id (toCompleted out))
          (r.1, r.2.1, transCalls lang img env ++ r.2.2)
      | .error .apiKeyError => (cur1, true, transCalls lang img env)
      | .error (.itemError m) =>
          let r := runLoop lang rest (updateById cur1 img.id (toErrored m))
          (r.1, r.2.1, transCalls lang img env ++ r.2.2)

/-- The App state relevant to the pipeline: the queue, the credential-valid
flag, and the in-progress flag. -/
structure AppState where
  images : List MangaImage
  hasKey : Bool
  isProcessing : Bool
deriving DecidableEq, Repr

/-- `processImages`: guard, run the loop over the snapshot (`pending` pairs
each snapshot item with its remote-call oracle), clear `isProcessing`, and set
`hasKey` to false when the loop stopped on `API_KEY_ERROR`. -/
def processImages (lang : String) (pending : List (MangaImage × Env)) (s : AppState) :
    AppState × List (Nat × ServiceCall) :=
  if s.images.isEmpty || s.isProcessing then (s, [])
  else
    let r := runLoop lang pending s.images
    ({ images := r.1
       hasKey := if r.2.1 then false else s.hasKey
       isProcessing := false }, r.2.2)

/-- The regenerate onClick handler: find the edited item, mark it processing,
call `regenerateMangaImage` with the edited text, then complete it (keeping
the old `ocrText` when the edited text is empty), or invalidate the key, or
mark it errored. -/
def regenerateHandler (env : Env) (lang : String) (editingId : Nat)
    (editingText : String) (s : AppState) : AppState × List (Nat × ServiceCall) :=
  match s.images.find? (fun i => i.id == editingId) with
  | none => (s, [])
  | some img =>
    let imgs1 := updateById s.images editingId toProcessing
    let r := regenerateMangaImage img.file.fileType lang editingText env
    let tagged := r.2.map fun c => (editingId, c)
    match r.1 with
    | .ok newUrl =>
        ({ s with images := updateById imgs1 editingId (regenCompleted newUrl editingText) },
         tagged)
    | .error .apiKeyError => ({ s with images := imgs1, hasKey := false }, tagged)
    | .error (.itemError m) =>
        ({ s with images := updateById imgs1 editingId (toErrored m) }, tagged)

/-- JS `s.split(sep)` on character lists (single-character separator). -/
def splitOnChar (sep : Char) : List Char → List (List Char)
  | [] => [[]]
  | c :: rest =>
    if c == sep then [] :: splitOnChar sep rest
    else
      match splitOnChar sep rest with
      | [] => [[c]]
      | h :: t => (c :: h) :: t

/-- JS `s.split(sep)` for strings. -/
def jsSplit (sep : Char) (s : String) : List String :=
  (splitOnChar sep s.data).map fun l => String.mk l

/-- Archive entry naming of `downloadAllAsZip`:
`translated_` + `name.split('.')[0]` + `.` + (`name.split('.').pop() || 'png'`). -/
def zipEntryName (name : String) : String :=
  let extension :=
    match (jsSplit '.' name).getLast? with
    | some e => if e ≠ "" then e else "png"
    | none => "png"
  "translated_" ++ ((jsSplit '.' name).headD "") ++ "." ++ extension

/-- The archive entries of `downloadAllAsZip`: one per item with a translated
image, named by `zipEntryName`, content = the base64 payload of the data URL
(`translatedUrl.split(',')[1]`). -/
def zipEntries (images : List MangaImage) : List (String × String) :=
  (images.filter fun img => img.translatedUrl.isSome).map fun img =>
    (zipEntryName img.file.name, (jsSplit ',' (img.translatedUrl.getD "")).getD 1 "")

/-- Queue lookup by id. -/
def lookupId (l : List MangaImage) (i : Nat) : Option MangaImage :=
  l.find? fun it => it.id == i

/-- The spec's exclusivity invariant, as claimed: a `Completed` item has an
output image and no error message; an `Error` item has an error message and no
output image. -/
def exclusiveOk (it : MangaImage) : Bool :=
  (if it.status = Status.completed then it.translatedUrl.isSome && it.error.isNone else true)
    && (if it.status = Status.error then it.error.isSome && it.translatedUrl.isNone else true)

/-- The presence half of the invariant that the code actually maintains. -/
def presenceOk (it : MangaImage) : Prop :=
  (it.status = Status.completed → it.translatedUrl ≠ none)
    ∧ (it.status = Status.error → it.error ≠ none)

instance : DecidablePred presenceOk := fun it => by
  unfold presenceOk
  infer_instance

example :
    zipEntryName "page.01.jpg" = "translated_page.jpg" := by decide

theorem runLoop_nil (lang : String) (cur : List MangaImage) :
    runLoop lang [] cur = (cur, false, []) := rfl

theorem runLoop_skip (lang : String) (img : MangaImage) (env : Env)
    (rest : List (MangaImage × Env)) (cur : List MangaImage)
    (h : img.status = Status.completed) :
    runLoop lang ((img, env) :: rest) cur = runLoop lang rest cur := by
  simp [runLoop, h]

theorem runLoop_ok (lang : String) (img : MangaImage) (env : Env)
    (rest : List (MangaImage × Env)) (cur : List MangaImage) (out : TranslateOk)
    (h : ¬ img.status = Status.completed)
    (hres : (translateMangaImage img.file.fileType lang none env).1 = .ok out) :
    runLoop lang ((img, env) :: rest) cur =
      ((runLoop lang rest (updateById (updateById cur img.id toProcessing) img.id (toCompleted out))).1,
       (runLoop lang rest (updateById (updateById cur img.id toProcessing) img.id (toCompleted out))).2.1,
       transCalls lang img env
         ++ (runLoop lang rest (updateById (updateById cur img.id toProcessing) img.id (toCompleted out))).2.2) := by
  rw [runLoop, if_neg h]
  simp only [hres]

theorem runLoop_authStop (lang : String) (img : MangaImage) (env : Env)
    (rest : List (MangaImage × Env)) (cur : List MangaImage)
    (h : ¬ img.status = Status.completed)
    (hres : (translateMangaImage img.file.fileType lang none env).1 = .error TransError.apiKeyError) :
    runLoop lang ((img, env) :: rest) cur =
      (updateById cur img.id toProcessing, true, transCalls lang img env) := by
  rw [runLoop, if_neg h]
  simp only [hres]

theorem runLoop_err (lang : String) (img : MangaImage) (env : Env)
    (rest : List (MangaImage × Env)) (cur : List MangaImage) (m : String)
    (h : ¬ img.status = Status.completed)
    (hres : (translateMangaImage img.file.fileType lang none env).1 = .error (TransError.itemError m)) :
    runLoop lang ((img, env) :: rest) cur =
      ((runLoop lang rest (updateById (updateById cur img.id toProcessing) img.id (toErrored m))).1,
       (runLoop lang rest (updateById (updateById cur img.id toProcessing) img.id (toErrored m))).2.1,
       transCalls lang img env
         ++ (runLoop lang rest (updateById (updateById cur img.id toProcessing) img.id (toErrored m))).2.2) := by
  rw [runLoop, if_neg h]
  simp only [hres]

theorem lookupId_updateById_ne (l : List MangaImage) (f : MangaImage → MangaImage)
    (i j : Nat) (hf : ∀ it, (f it).id = it.id) (hne : j ≠ i) :
    lookupId (updateById l j f) i = lookupId l i := by
  induction l with
  | nil => rfl
  | cons a rest ih =>
    simp only [lookupId, updateById, List.map_cons, List.find?] at *
    by_cases ha : a.id = j
    · rw [if_pos ha, hf a]
      have : (a.id == i) = false := by
        simp only [beq_eq_false_iff_ne, ne_eq]
        intro h
        exact hne (ha ▸ h ▸ rfl)
      rw [this] at *
      exact ih
    · rw [if_neg ha]
      cases h : (a.id == i) with
      | true => rfl
      | false => exact ih

theorem lookupId_updateById_self (l : List MangaImage) (f : MangaImage → MangaImage)
    (i : Nat) (hf : ∀ it, (f it).id = it.id) :
    lookupId (updateById l i f) i = (lookupId l i).map f := by
  induction l with
  | nil => rfl
  | cons a rest ih =>
    simp only [lookupId, updateById, List.map_cons, List.find?] at *
    by_cases ha : a.id = i
    · rw [if_pos ha, hf a]
      have : (a.id == i) = true := by simpa using ha
      rw [this]
      rfl
    · rw [if_neg ha]
      have : (a.id == i) = false := by simpa using ha
      rw [this]
      exact ih

theorem lookupId_mem_nodup (l : List MangaImage)
    (hnd : (l.map (fun it => it.id)).Nodup) (img : MangaImage) (h : img ∈ l) :
    lookupId l img.id = some img := by
  induction l with
  | nil => cases h
  | cons a rest ih =>
    simp only [List.map_cons, List.nodup_cons] at hnd
    rcases List.mem_cons.mp h with rfl | hmem
    · simp [lookupId, List.find?]
    · have hne : (a.id == img.id) = false := by
        simp only [beq_eq_false_iff_ne, ne_eq]
        intro he
        exact hnd.1 (he ▸ List.mem_map_of_mem (fun it => it.id) hmem)
      simp only [lookupId, List.find?, hne]
      exact ih hnd.2 hmem

theorem runLoop_frame (lang : String) :
    ∀ (pending : List (MangaImage × Env)) (cur : List MangaImage) (i : Nat),
      (∀ p ∈ pending, ¬ p.1.status = Status.completed → p.1.id ≠ i) →
      lookupId (runLoop lang pending cur).1 i = lookupId cur i := by
  intro pending
  induction pending with
  | nil => intro cur i _; rfl
  | cons p rest ih =>
    intro cur i hp
    obtain ⟨img, env⟩ := p
    by_cases hc : img.status = Status.completed
    · rw [runLoop_skip lang img env rest cur hc]
      exact ih cur i fun q hq => hp q (List.mem_cons_of_mem _ hq)
    · have hid : img.id ≠ i := hp (img, env) (List.mem_cons_self _ _) hc
      have hrest : ∀ q ∈ rest, ¬ q.1.status = Status.completed → q.1.id ≠ i :=
        fun q hq => hp q (List.mem_cons_of_mem _ hq)
      cases hres : (translateMangaImage img.file.fileType lang none env).1 with
      | ok out =>
        rw [runLoop_ok lang img env rest cur out hc hres]
        rw [ih _ i hrest, lookupId_updateById_ne _ (toCompleted out) i img.id (fun it => rfl) hid,
          lookupId_updateById_ne _ toProcessing i img.id (fun it => rfl) hid]
      | error e =>
        cases e with
        | apiKeyError =>
          rw [runLoop_authStop lang img env rest cur hc hres]
          exact lookupId_updateById_ne _ toProcessing i img.id (fun it => rfl) hid
        | itemError m =>
          rw [runLoop_err lang img env rest cur m hc hres]
          rw [ih _ i hrest, lookupId_updateById_ne _ (toErrored m) i img.id (fun it => rfl) hid,
            lookupId_updateById_ne _ toProcessing i img.id (fun it => rfl) hid]

theorem runLoop_trace_ids (lang : String) :
    ∀ (pending : List (MangaImage × Env)) (cur : List MangaImage)
      (e : Nat × ServiceCall), e ∈ (runLoop lang pending cur).2.2 →
      e.1 ∈ pending.map fun p => p.1.id := by
  intro pending
  induction pending with
  | nil => intro cur e he; cases he
  | cons p rest ih =>
    intro cur e he
    obtain ⟨img, env⟩ := p
    by_cases hc : img.status = Status.completed
    · rw [runLoop_skip lang img env rest cur hc] at he
      exact List.mem_cons_of_mem _ (ih cur e he)
    · have htag : ∀ x ∈ transCalls lang img env, Prod.fst x = img.id := by
        intro x hx
        simp only [transCalls, List.mem_map] at hx
        obtain ⟨c, _, rfl⟩ := hx
        rfl
      cases hres : (translateMangaImage img.file.fileType lang none env).1 with
      | ok out =>
        rw [runLoop_ok lang img env rest cur out hc hres] at he
        rcases List.mem_append.mp he with h1 | h2
        · exact List.mem_cons.mpr (Or.inl (htag e h1))
        · exact List.mem_cons_of_mem _ (ih _ e h2)
      | error err =>
        cases err with
        | apiKeyError =>
          rw [runLoop_authStop lang img env rest cur hc hres] at he
          exact List.mem_cons.mpr (Or.inl (htag e he))
        | itemError m =>
          rw [runLoop_err lang img env rest cur m hc hres] at he
          rcases List.mem_append.mp he with h1 | h2
          · exact List.mem_cons.mpr (Or.inl (htag e h1))
          · exact List.mem_cons_of_mem _ (ih _ e h2)

theorem runLoop_all_completed (lang : String) :
    ∀ (pending : List (MangaImage × Env)) (cur : List MangaImage),
      (∀ p ∈ pending, p.1.status = Status.completed) →
      runLoop lang pending cur = (cur, false, []) := by
  intro pending
  induction pending with
  | nil => intro cur _; rfl
  | cons p rest ih =>
    intro cur hall
    obtain ⟨img, env⟩ := p
    rw [runLoop_skip lang img env rest cur (hall (img, env) (List.mem_cons_self _ _))]
    exact ih cur fun q hq => hall q (List.mem_cons_of_mem _ hq)

theorem runLoop_filter_completed (lang : String) :
    ∀ (pending : List (MangaImage × Env)) (cur : List MangaImage),
      runLoop lang pending cur =
        runLoop lang
          (pending.filter fun p => !(decide (p.1.status = Status.completed))) cur := by
  intro pending
  induction pending with
  | nil => intro cur; rfl
  | cons p rest ih =>
    intro cur
    obtain ⟨img, env⟩ := p
    by_cases hc : img.status = Status.completed
    · have hfc : List.filter (fun p => !(decide (p.1.status = Status.completed)))
          ((img, env) :: rest)
          = List.filter (fun p => !(decide (p.1.status = Status.completed))) rest := by
        simp [List.filter_cons, hc]
      rw [runLoop_skip lang img env rest cur hc, hfc]
      exact ih cur
    · have hfc : List.filter (fun p => !(decide (p.1.status = Status.completed)))
          ((img, env) :: rest)
          = (img, env)
            :: List.filter (fun p => !(decide (p.1.status = Status.completed))) rest := by
        simp [List.filter_cons, hc]
      rw [hfc]
      cases hres : (translateMangaImage img.file.fileType lang none env).1 with
      | ok out =>
        rw [runLoop_ok lang img env rest cur out hc hres,
          runLoop_ok lang img env _ cur out hc hres, ih]
      | error e =>
        cases e with
        | apiKeyError =>
          rw [runLoop_authStop lang img env rest cur hc hres,
            runLoop_authStop lang img env _ cur hc hres]
        | itemError m =>
          rw [runLoop_err lang img env rest cur m hc hres,
            runLoop_err lang img env _ cur m hc hres, ih]

theorem runLoop_halts_at_auth (lang : String) (itm : MangaImage) (envk : Env)
    (suf : List (MangaImage × Env))
    (hitm : ¬ itm.status = Status.completed)
    (hauth : (translateMangaImage itm.file.fileType lang none envk).1
      = .error TransError.apiKeyError) :
    ∀ (pre : List (MangaImage × Env)) (cur : List MangaImage),
      (∀ p ∈ pre, p.1.status = Status.completed ∨
        ¬ (translateMangaImage p.1.file.fileType lang none p.2).1
            = .error TransError.apiKeyError) →
      runLoop lang (pre ++ (itm, envk) :: suf) cur
        = runLoop lang (pre ++ [(itm, envk)]) cur := by
  intro pre
  induction pre with
  | nil =>
    intro cur _
    simp only [List.nil_append]
    rw [runLoop_authStop lang itm envk suf cur hitm hauth,
      runLoop_authStop lang itm envk [] cur hitm hauth]
  | cons p rest ih =>
    intro cur hpre
    obtain ⟨img, env⟩ := p
    have hrest : ∀ q ∈ rest, q.1.status = Status.completed ∨
        ¬ (translateMangaImage q.1.file.fileType lang none q.2).1
            = .error TransError.apiKeyError :=
      fun q hq => hpre q (List.mem_cons_of_mem _ hq)
    simp only [List.cons_append]
    by_cases hc : img.status = Status.completed
    · rw [runLoop_skip lang img env _ cur hc, runLoop_skip lang img env _ cur hc]
      exact ih cur hrest
    · rcases hpre (img, env) (List.mem_cons_self _ _) with h | hna
      · exact absurd h hc
      cases hres : (translateMangaImage img.file.fileType lang none env).1 with
      | ok out =>
        rw [runLoop_ok lang img env _ cur out hc hres,
          runLoop_ok lang img env _ cur out hc hres, ih _ hrest]
      | error e =>
        cases e with
        | apiKeyError => exact absurd hres hna
        | itemError m =>
          rw [runLoop_err lang img env _ cur m hc hres,
            runLoop_err lang img env _ cur m hc hres, ih _ hrest]

theorem runLoop_auth_flag (lang : String) (itm : MangaImage) (envk : Env)
    (hitm : ¬ itm.status = Status.completed)
    (hauth : (translateMangaImage itm.file.fileType lang none envk).1
      = .error TransError.apiKeyError) :
    ∀ (pre : List (MangaImage × Env)) (cur : List MangaImage),
      (∀ p ∈ pre, p.1.status = Status.completed ∨
        ¬ (translateMangaImage p.1.file.fileType lang none p.2).1
            = .error TransError.apiKeyError) →
      (runLoop lang (pre ++ [(itm, envk)]) cur).2.1 = true := by
  intro pre
  induction pre with
  | nil =>
    intro cur _
    simp only [List.nil_append]
    rw [runLoop_authStop lang itm envk [] cur hitm hauth]
  | cons p rest ih =>
    intro cur hpre
    obtain ⟨img, env⟩ := p
    have hrest : ∀ q ∈ rest, q.1.status = Status.completed ∨
        ¬ (translateMangaImage q.1.file.fileType lang none q.2).1
            = .error TransError.apiKeyError :=
      fun q hq => hpre q (List.mem_cons_of_mem _ hq)
    simp only [List.cons_append]
    by_cases hc : img.status = Status.completed
    · rw [runLoop_skip lang img env _ cur hc]
      exact ih cur hrest
    · rcases hpre (img, env) (List.mem_cons_self _ _) with h | hna
      · exact absurd h hc
      cases hres : (translateMangaImage img.file.fileType lang none env).1 with
      | ok out =>
        rw [runLoop_ok lang img env _ cur out hc hres]
        exact ih _ hrest
      | error e =>
        cases e with
        | apiKeyError => exact absurd hres hna
        | itemError m =>
          rw [runLoop_err lang img env _ cur m hc hres]
          exact ih _ hrest

theorem runLoop_auth_item_processing (lang : String) (itm : MangaImage) (envk : Env)
    (hitm : ¬ itm.status = Status.completed)
    (hauth : (translateMangaImage itm.file.fileType lang none envk).1
      = .error TransError.apiKeyError) :
    ∀ (pre : List (MangaImage × Env)) (cur : List MangaImage),
      (∀ p ∈ pre, p.1.status = Status.completed ∨
        ¬ (translateMangaImage p.1.file.fileType lang none p.2).1
            = .error TransError.apiKeyError) →
      (∀ p ∈ pre, ¬ p.1.status = Status.completed → p.1.id ≠ itm.id) →
      lookupId (runLoop lang (pre ++ [(itm, envk)]) cur).1 itm.id
        = (lookupId cur itm.id).map toProcessing := by
  intro pre
  induction pre with
  | nil =>
    intro cur _ _
    simp only [List.nil_append]
    rw [runLoop_authStop lang itm envk [] cur hitm hauth]
    exact lookupId_updateById_self cur toProcessing itm.id (fun it => rfl)
  | cons p rest ih =>
    intro cur hpre hfr
    obtain ⟨img, env⟩ := p
    have hrest : ∀ q ∈ rest, q.1.status = Status.completed ∨
        ¬ (translateMangaImage q.1.file.fileType lang none q.2).1
            = .error TransError.apiKeyError :=
      fun q hq => hpre q (List.mem_cons_of_mem _ hq)
    have hfrest : ∀ q ∈ rest, ¬ q.1.status = Status.completed → q.1.id ≠ itm.id :=
      fun q hq => hfr q (List.mem_cons_of_mem _ hq)
    simp only [List.cons_append]
    by_cases hc : img.status = Status.completed
    · rw [runLoop_skip lang img env _ cur hc]
      exact ih cur hrest hfrest
    · have hid : img.id ≠ itm.id := hfr (img, env) (List.mem_cons_self _ _) hc
      rcases hpre (img, env) (List.mem_cons_self _ _) with h | hna
      · exact absurd h hc
      cases hres : (translateMangaImage img.file.fileType lang none env).1 with
      | ok out =>
        rw [runLoop_ok lang img env _ cur out hc hres]
        rw [ih _ hrest hfrest,
          lookupId_updateById_ne _ (toCompleted out) itm.id img.id (fun it => rfl) hid,
          lookupId_updateById_ne _ toProcessing itm.id img.id (fun it => rfl) hid]
      | error e =>
        cases e with
        | apiKeyError => exact absurd hres hna
        | itemError m =>
          rw [runLoop_err lang img env _ cur m hc hres]
          rw [ih _ hrest hfrest,
            lookupId_updateById_ne _ (toErrored m) itm.id img.id (fun it => rfl) hid,
            lookupId_updateById_ne _ toProcessing itm.id img.id (fun it => rfl) hid]

theorem runLoop_kept (lang : String) :
    ∀ (pre tail : List (MangaImage × Env)) (cur : List MangaImage),
      (((pre ++ tail).map fun p => p.1.id).Nodup) →
      (∀ q ∈ pre, q.1.status = Status.completed ∨
        ¬ (translateMangaImage q.1.file.fileType lang none q.2).1
            = .error TransError.apiKeyError) →
      ∀ p ∈ pre,
        (p.1.status = Status.completed →
          lookupId (runLoop lang (pre ++ tail) cur).1 p.1.id = lookupId cur p.1.id) ∧
        (¬ p.1.status = Status.completed →
          ∀ out, (translateMangaImage p.1.file.fileType lang none p.2).1 = .ok out →
            lookupId (runLoop lang (pre ++ tail) cur).1 p.1.id
              = (lookupId cur p.1.id).map fun it => toCompleted out (toProcessing it)) := by
  intro pre
  induction pre with
  | nil => intro tail cur _ _ p hp; cases hp
  | cons q pre' ih =>
    intro tail cur hnd hpre p hp
    obtain ⟨qi, qe⟩ := q
    have hnd' := hnd
    simp only [List.cons_append, List.map_cons, List.nodup_cons] at hnd'
    have hqid : qi.id ∉ (pre' ++ tail).map fun r => r.1.id := hnd'.1
    have hframe : ∀ r ∈ pre' ++ tail, ¬ r.1.status = Status.completed → r.1.id ≠ qi.id := by
      intro r hr _ he
      exact hqid (he ▸ List.mem_map_of_mem (fun r => r.1.id) hr)
    have hpre' : ∀ r ∈ pre', r.1.status = Status.completed ∨
        ¬ (translateMangaImage r.1.file.fileType lang none r.2).1
            = .error TransError.apiKeyError :=
      fun r hr => hpre r (List.mem_cons_of_mem _ hr)
    rcases List.mem_cons.mp hp with rfl | hmem
    · constructor
      · intro hc
        simp only [List.cons_append]
        rw [runLoop_skip lang qi qe _ cur hc]
        exact runLoop_frame lang (pre' ++ tail) cur qi.id hframe
      · intro hc out hout
        simp only [List.cons_append]
        rw [runLoop_ok lang qi qe _ cur out hc hout]
        rw [runLoop_frame lang (pre' ++ tail) _ qi.id hframe,
          lookupId_updateById_self _ (toCompleted out) qi.id (fun it => rfl),
          lookupId_updateById_self _ toProcessing qi.id (fun it => rfl),
          Option.map_map]
        rfl
    · have hpid : qi.id ≠ p.1.id := by
        intro he
        exact hqid (he ▸ List.mem_map_of_mem (fun r => r.1.id)
          (List.mem_append_left tail hmem))
      have ihp := fun cur2 => ih tail cur2 hnd'.2 hpre' p hmem
      by_cases hc : qi.status = Status.completed
      · simp only [List.cons_append]
        rw [runLoop_skip lang qi qe _ cur hc]
        exact ihp cur
      · rcases hpre (qi, qe) (List.mem_cons_self _ _) with h | hna
        · exact absurd h hc
        cases hres : (translateMangaImage qi.file.fileType lang none qe).1 with
        | ok out0 =>
          simp only [List.cons_append]
          rw [runLoop_ok lang qi qe _ cur out0 hc hres]
          constructor
          · intro hcp
            rw [(ihp _).1 hcp,
              lookupId_updateById_ne _ (toCompleted out0) p.1.id qi.id (fun it => rfl) hpid,
              lookupId_updateById_ne _ toProcessing p.1.id qi.id (fun it => rfl) hpid]
          · intro hcp out hout
            rw [(ihp _).2 hcp out hout,
              lookupId_updateById_ne _ (toCompleted out0) p.1.id qi.id (fun it => rfl) hpid,
              lookupId_updateById_ne _ toProcessing p.1.id qi.id (fun it => rfl) hpid]
        | error e =>
          cases e with
          | apiKeyError => exact absurd hres hna
          | itemError m =>
            simp only [List.cons_append]
            rw [runLoop_err lang qi qe _ cur m hc hres]
            constructor
            · intro hcp
              rw [(ihp _).1 hcp,
                lookupId_updateById_ne _ (toErrored m) p.1.id qi.id (fun it => rfl) hpid,
                lookupId_updateById_ne _ toProcessing p.1.id qi.id (fun it => rfl) hpid]
            · intro hcp out hout
              rw [(ihp _).2 hcp out hout,
                lookupId_updateById_ne _ (toErrored m) p.1.id qi.id (fun it => rfl) hpid,
                lookupId_updateById_ne _ toProcessing p.1.id qi.id (fun it => rfl) hpid]

theorem presenceOk_updateById (l : List MangaImage) (i : Nat) (f : MangaImage → MangaImage)
    (hf : ∀ it, presenceOk it → presenceOk (f it))
    (hl : ∀ it ∈ l, presenceOk it) :
    ∀ it ∈ updateById l i f, presenceOk it := by
  intro it hit
  simp only [updateById, List.mem_map] at hit
  obtain ⟨a, ha, rfl⟩ := hit
  by_cases h : a.id = i
  · rw [if_pos h]; exact hf a (hl a ha)
  · rw [if_neg h]; exact hl a ha

theorem presenceOk_toProcessing (it : MangaImage) (_h : presenceOk it) :
    presenceOk (toProcessing it) := by
  constructor <;> intro hs <;> cases hs

theorem presenceOk_toCompleted (out : TranslateOk) (it : MangaImage) (_h : presenceOk it) :
    presenceOk (toCompleted out it) := by
  constructor
  · intro _; simp [toCompleted]
  · intro hs; cases hs

theorem presenceOk_toErrored (m : String) (it : MangaImage) (_h : presenceOk it) :
    presenceOk (toErrored m it) := by
  constructor
  · intro hs; cases hs
  · intro _; simp [toErrored]

theorem presenceOk_regenCompleted (u t : String) (it : MangaImage) (_h : presenceOk it) :
    presenceOk (regenCompleted u t it) := by
  constructor
  · intro _; simp [regenCompleted]
  · intro hs; cases hs

theorem runLoop_presence (lang : String) :
    ∀ (pending : List (MangaImage × Env)) (cur : List MangaImage),
      (∀ it ∈ cur, presenceOk it) →
      ∀ it ∈ (runLoop lang pending cur).1, presenceOk it := by
  intro pending
  induction pending with
  | nil => intro cur h it hit; exact h it hit
  | cons p rest ih =>
    intro cur hcur it hit
    obtain ⟨img, env⟩ := p
    by_cases hc : img.status = Status.completed
    · rw [runLoop_skip lang img env rest cur hc] at hit
      exact ih cur hcur it hit
    · cases hres : (translateMangaImage img.file.fileType lang none env).1 with
      | ok out =>
        rw [runLoop_ok lang img env rest cur out hc hres] at hit
        exact ih _ (presenceOk_updateById _ _ _ (presenceOk_toCompleted out)
          (presenceOk_updateById _ _ _ presenceOk_toProcessing hcur)) it hit
      | error e =>
        cases e with
        | apiKeyError =>
          rw [runLoop_authStop lang img env rest cur hc hres] at hit
          exact presenceOk_updateById _ _ _ presenceOk_toProcessing hcur it hit
        | itemError m =>
          rw [runLoop_err lang img env rest cur m hc hres] at hit
          exact ih _ (presenceOk_updateById _ _ _ (presenceOk_toErrored m)
            (presenceOk_updateById _ _ _ presenceOk_toProcessing hcur)) it hit

theorem classifyErr_plain (m fb : String)
    (hsig : msgContains m AUTH_SIGNAL = false) (hne : ¬ m = "") :
    classifyErr (some m) fb = TransError.itemError m := by
  simp [classifyErr, hsig, hne]

theorem inpaintStep_of_okData (mimeType : String) (r : CallResult) (fb d : String)
    (h : inpaintOkData r = some d) :
    inpaintStep mimeType r fb = .ok (dataUrl mimeType d) := by
  cases r with
  | err m => simp [inpaintOkData] at h
  | ok resp =>
    simp only [inpaintOkData] at h
    cases hh : resp.candidates.head? with
    | none => rw [hh] at h; cases h
    | some c =>
      rw [hh] at h
      have hfi : findInline c.parts = some d := h
      simp only [inpaintStep, hh, hfi]

theorem inpaintStep_of_noData (resp : GenResponse)
    (h : inpaintOkData (CallResult.ok resp) = none) :
    ∃ msg, ¬ msg = "" ∧ msgContains msg AUTH_SIGNAL = false ∧
      (∀ mimeType fb, inpaintStep mimeType (CallResult.ok resp) fb
        = .error (TransError.itemError msg))
      ∧ (msg = noResponseMsg ∨ msg = noImagePartMsg) := by
  simp only [inpaintOkData] at h
  cases hh : resp.candidates.head? with
  | none =>
    refine ⟨noResponseMsg, by decide, by decide, ?_, Or.inl rfl⟩
    intro mimeType fb
    simp only [inpaintStep, hh]
    rw [classifyErr_plain noResponseMsg fb (by decide) (by decide)]
  | some c =>
    rw [hh] at h
    have hfi : findInline c.parts = none := h
    refine ⟨noImagePartMsg, by decide, by decide, ?_, Or.inr rfl⟩
    intro mimeType fb
    simp only [inpaintStep, hh, hfi]
    rw [classifyErr_plain noImagePartMsg fb (by decide) (by decide)]

/-- The outcome category of a service result: success, auth failure, item
failure.  This is what determines the item's transition rule. -/
inductive ResKind where
  | success
  | authFail
  | itemFail
deriving DecidableEq, Repr

/-- Outcome category of a service result. -/
def resKind {α : Type} : Except TransError α → ResKind
  | .ok _ => .success
  | .error .apiKeyError => .authFail
  | .error (.itemError _) => .itemFail

theorem resKind_classifyErr_fallback {α : Type} (m : Option String) (fb1 fb2 : String) :
    resKind (Except.error (α := α) (classifyErr m fb1))
      = resKind (Except.error (α := α) (classifyErr m fb2)) := by
  simp only [classifyErr]
  cases m with
  | none => rfl
  | some s => cases h : msgContains s AUTH_SIGNAL <;> simp [h, resKind]

theorem resKind_inpaintStep_fallback (mt1 mt2 : String) (r : CallResult) (fb1 fb2 : String) :
    resKind (inpaintStep mt1 r fb1) = resKind (inpaintStep mt2 r fb2) := by
  cases r with
  | err m =>
    simp only [inpaintStep]
    exact resKind_classifyErr_fallback m fb1 fb2
  | ok resp =>
    simp only [inpaintStep]
    cases hh : resp.candidates.head? with
    | none =>
      simp only [hh]
      exact resKind_classifyErr_fallback (some noResponseMsg) fb1 fb2
    | some c =>
      simp only [hh]
      cases hf : findInline c.parts with
      | some d => simp only [hf]; rfl
      | none =>
        simp only [hf]
        exact resKind_classifyErr_fallback (some noImagePartMsg) fb1 fb2

/-- C2 counterexample: with a present-but-empty error message, the code
propagates the generic fallback, not the original (empty) message. -/
theorem C2_counterexample :
    classifyErr (some "") fallbackTranslateMsg = TransError.itemError fallbackTranslateMsg
      ∧ ¬ classifyErr (some "") fallbackTranslateMsg = TransError.itemError "" := by
  decide

/-- C2 (amended): a failure is classified as an authentication failure
(`API_KEY_ERROR`) iff its message contains the fixed phrase "Requested entity
was not found"; every other failure is an item failure carrying the original
message when non-empty, or the generic fallback when the message is absent or
empty; when the inpainting call throws, both `translateMangaImage` and
`regenerateMangaImage` propagate exactly this classification. -/
theorem C2_classification_amended (message : Option String) (fallback : String) :
    (classifyErr message fallback = TransError.apiKeyError ↔
      ∃ m, message = some m ∧ msgContains m AUTH_SIGNAL = true)
    ∧ (∀ m, message = some m → msgContains m AUTH_SIGNAL = false → ¬ m = "" →
        classifyErr message fallback = TransError.itemError m)
    ∧ ((message = none ∨ message = some "") →
        classifyErr message fallback = TransError.itemError fallback)
    ∧ (∀ (mt lang : String) (gp : Option String) (ref : String) (env : Env),
        env.inpaintResult = CallResult.err message →
        (translateMangaImage mt lang gp env).1
            = Except.error (classifyErr message fallbackTranslateMsg)
          ∧ (regenerateMangaImage mt lang ref env).1
            = Except.error (classifyErr message fallbackRegenerateMsg)) := by
  refine ⟨?_, ?_, ?_, ?_⟩
  · cases message with
    | none => simp [classifyErr]
    | some s =>
      cases h : msgContains s AUTH_SIGNAL with
      | true => simp [classifyErr, h]
      | false => simp [classifyErr, h]
  · intro m hm hsig hne
    subst hm
    exact classifyErr_plain m fallback hsig hne
  · rintro (rfl | rfl)
    · simp [classifyErr]
    · simp [classifyErr, msgContains, containsChars, startsWithChars, AUTH_SIGNAL]
  · intro mt lang gp ref env henv
    constructor
    · simp [translateMangaImage, inpaintStep, henv]
    · simp [regenerateMangaImage, inpaintStep, henv]

theorem C2_classification_amended_witness :
    classifyErr (some "Requested entity was not found") "fb" = TransError.apiKeyError
      ∧ classifyErr (some "quota exceeded") "fb" = TransError.itemError "quota exceeded"
      ∧ classifyErr none "fb" = TransError.itemError "fb" :=
  ⟨(C2_classification_amended (some "Requested entity was not found") "fb").1.mpr
      ⟨"Requested entity was not found", rfl, by decide⟩,
   (C2_classification_amended (some "quota exceeded") "fb").2.1 "quota exceeded" rfl
      (by decide) (by decide),
   (C2_classification_amended none "fb").2.2.1 (Or.inl rfl)⟩

/-- C8: the code's archive entry naming truncates the stem at the FIRST dot,
so a multi-dot filename `page.01.jpg` yields `translated_page.jpg`, not the
`translated_page.01.jpg` required by the spec's stem-preserving rule. -/
theorem C8_export_naming_eval :
    zipEntryName "page.01.jpg" = "translated_page.jpg"
      ∧ ¬ zipEntryName "page.01.jpg" = "translated_page.01.jpg" := by
  decide

theorem translate_of_okData (mt lang : String) (gp : Option String) (env : Env) (d : String)
    (h : inpaintOkData env.inpaintResult = some d) :
    (translateMangaImage mt lang gp env).1
      = .ok ⟨dataUrl mt d, detectedTextOf env.ocrResult⟩ := by
  simp [translateMangaImage,
    inpaintStep_of_okData mt env.inpaintResult fallbackTranslateMsg d h]

theorem regen_of_okData (mt lang ref : String) (env : Env) (d : String)
    (h : inpaintOkData env.inpaintResult = some d) :
    (regenerateMangaImage mt lang ref env).1 = .ok (dataUrl mt d) := by
  simp [regenerateMangaImage,
    inpaintStep_of_okData mt env.inpaintResult fallbackRegenerateMsg d h]

theorem regenerateHandler_found_ok (env : Env) (lang txt : String) (s : AppState)
    (img : MangaImage) (newUrl : String)
    (hnd : (s.images.map fun it => it.id).Nodup) (hmem : img ∈ s.images)
    (hres : (regenerateMangaImage img.file.fileType lang txt env).1 = .ok newUrl) :
    lookupId (regenerateHandler env lang img.id txt s).1.images img.id
      = some (regenCompleted newUrl txt (toProcessing img)) := by
  have hfind : s.images.find? (fun i => i.id == img.id) = some img :=
    lookupId_mem_nodup s.images hnd img hmem
  simp only [regenerateHandler, hfind, hres]
  rw [lookupId_updateById_self _ (regenCompleted newUrl txt) img.id (fun it => rfl),
    lookupId_updateById_self _ toProcessing img.id (fun it => rfl)]
  have hlk : lookupId s.images img.id = some img := lookupId_mem_nodup s.images hnd img hmem
  rw [hlk]
  rfl

theorem regenerateHandler_found_err (env : Env) (lang txt : String) (s : AppState)
    (img : MangaImage) (m : String)
    (hnd : (s.images.map fun it => it.id).Nodup) (hmem : img ∈ s.images)
    (hres : (regenerateMangaImage img.file.fileType lang txt env).1
      = .error (TransError.itemError m)) :
    lookupId (regenerateHandler env lang img.id txt s).1.images img.id
      = some (toErrored m (toProcessing img)) := by
  have hfind : s.images.find? (fun i => i.id == img.id) = some img :=
    lookupId_mem_nodup s.images hnd img hmem
  simp only [regenerateHandler, hfind, hres]
  rw [lookupId_updateById_self _ (toErrored m) img.id (fun it => rfl),
    lookupId_updateById_self _ toProcessing img.id (fun it => rfl)]
  have hlk : lookupId s.images img.id = some img := lookupId_mem_nodup s.images hnd img hmem
  rw [hlk]
  rfl

/-- C3: a recognition failure is swallowed — when the OCR call throws and the
inpainting call returns an image, `translateMangaImage` returns normally with
empty recognition text, and the batch loop moves the item to `Completed` with
`ocrText` stored as the empty string. -/
theorem C3_recognition_swallowed (mt lang : String) (gp : Option String)
    (m : Option String) (env : Env) (d : String)
    (hocr : env.ocrResult = CallResult.err m)
    (hinp : inpaintOkData env.inpaintResult = some d) :
    (translateMangaImage mt lang gp env).1 = .ok ⟨dataUrl mt d, ""⟩
      ∧ ∀ img : MangaImage, img.file.fileType = mt → ¬ img.status = Status.completed →
        (runLoop lang [(img, env)] [img]).1
          = [{ img with
                status := Status.completed
                translatedUrl := some (dataUrl mt d)
                ocrText := some "" }] := by
  have hdet : detectedTextOf env.ocrResult = "" := by rw [hocr]; rfl
  have htr : (translateMangaImage mt lang gp env).1 = .ok ⟨dataUrl mt d, ""⟩ := by
    rw [translate_of_okData mt lang gp env d hinp, hdet]
  refine ⟨htr, ?_⟩
  intro img hmt hc
  have htr2 : (translateMangaImage img.file.fileType lang none env).1
      = .ok ⟨dataUrl mt d, ""⟩ := by
    rw [hmt, translate_of_okData mt lang none env d hinp, hdet]
  rw [runLoop_ok lang img env [] [img] ⟨dataUrl mt d, ""⟩ hc htr2, runLoop_nil]
  simp [updateById, toProcessing, toCompleted]

theorem C3_recognition_swallowed_witness :
    (translateMangaImage "image/png" "English" none
        ⟨CallResult.err (some "ocr boom"),
          CallResult.ok ⟨[⟨[⟨none, some "IMG"⟩]⟩]⟩⟩).1
      = .ok ⟨dataUrl "image/png" "IMG", ""⟩ :=
  (C3_recognition_swallowed "image/png" "English" none (some "ocr boom")
    ⟨CallResult.err (some "ocr boom"), CallResult.ok ⟨[⟨[⟨none, some "IMG"⟩]⟩]⟩⟩
    "IMG" rfl (by decide)).1

/-- C4: an empty inpainting response or one with no image payload yields an
item failure (never an auth failure) with a non-empty message, in both
`translateMangaImage` and `regenerateMangaImage`, regardless of the
recognition outcome; the batch loop moves the item to `Error` with that
message, and so does the regenerate handler. -/
theorem C4_no_image_item_failure (mt lang : String) (gp : Option String) (ref : String)
    (env : Env) (resp : GenResponse)
    (hresp : env.inpaintResult = CallResult.ok resp)
    (hno : inpaintOkData env.inpaintResult = none) :
    ∃ msg, ¬ msg = ""
      ∧ (translateMangaImage mt lang gp env).1 = Except.error (TransError.itemError msg)
      ∧ (regenerateMangaImage mt lang ref env).1 = Except.error (TransError.itemError msg)
      ∧ (msg = noResponseMsg ∨ msg = noImagePartMsg)
      ∧ (∀ img : MangaImage, img.file.fileType = mt → ¬ img.status = Status.completed →
          (runLoop lang [(img, env)] [img]).1
            = [{ img with status := Status.error, error := some msg }])
      ∧ (∀ (s : AppState) (img : MangaImage),
          (s.images.map fun it => it.id).Nodup → img ∈ s.images →
          img.file.fileType = mt →
          lookupId (regenerateHandler env lang img.id ref s).1.images img.id
            = some { img with status := Status.error, error := some msg }) := by
  rw [hresp] at hno
  obtain ⟨msg, hne, _hsig, hstep, hcase⟩ := inpaintStep_of_noData resp hno
  refine ⟨msg, hne, ?_, ?_, hcase, ?_, ?_⟩
  · simp [translateMangaImage, hresp, hstep mt fallbackTranslateMsg]
  · simp [regenerateMangaImage, hresp, hstep mt fallbackRegenerateMsg]
  · intro img hmt hc
    have htr : (translateMangaImage img.file.fileType lang none env).1
        = .error (TransError.itemError msg) := by
      simp [translateMangaImage, hresp, hstep img.file.fileType fallbackTranslateMsg]
    rw [runLoop_err lang img env [] [img] msg hc htr, runLoop_nil]
    simp [updateById, toProcessing, toErrored]
  · intro s img hnd hmem _hmt
    have hres : (regenerateMangaImage img.file.fileType lang ref env).1
        = .error (TransError.itemError msg) := by
      simp [regenerateMangaImage, hresp, hstep img.file.fileType fallbackRegenerateMsg]
    rw [regenerateHandler_found_err env lang ref s img msg hnd hmem hres]
    rfl

theorem C4_no_image_item_failure_witness :
    ∃ msg, ¬ msg = ""
      ∧ (translateMangaImage "image/png" "English" none
          ⟨CallResult.ok ⟨[⟨[⟨some "T", none⟩]⟩]⟩, CallResult.ok ⟨[]⟩⟩).1
        = Except.error (TransError.itemError msg)
      ∧ (regenerateMangaImage "image/png" "English" "R"
          ⟨CallResult.ok ⟨[⟨[⟨some "T", none⟩]⟩]⟩, CallResult.ok ⟨[]⟩⟩).1
        = Except.error (TransError.itemError msg) := by
  obtain ⟨msg, hne, ht, hr, -, -, -⟩ :=
    C4_no_image_item_failure "image/png" "English" none "R"
      ⟨CallResult.ok ⟨[⟨[⟨some "T", none⟩]⟩]⟩, CallResult.ok ⟨[]⟩⟩ ⟨[]⟩ rfl (by decide)
  exact ⟨msg, hne, ht, hr⟩

/-- Sample queue item used in concrete evaluations. -/
def img9 : MangaImage :=
  ⟨9, ⟨"p.png", "image/png", "AAA"⟩, "blob:9", none, none, Status.idle, none⟩

/-- Sample oracle: OCR detects "T", inpainting returns image data "IMG". -/
def env9 : Env :=
  ⟨CallResult.ok ⟨[⟨[⟨some "T", none⟩]⟩]⟩, CallResult.ok ⟨[⟨[⟨none, some "IMG"⟩]⟩]⟩⟩

/-- Sample app state: one idle item, valid key, not processing. -/
def s9 : AppState := ⟨[img9], true, false⟩

/-- C9: in a batch run the OCR call's prompt is always the no-context prompt —
`processImages` invokes `translateMangaImage` without the `globalPrompt`
argument — although a non-empty context would have produced a different
recognition prompt had it been forwarded. -/
theorem C9_context_not_forwarded_eval :
    (processImages "English" [(img9, env9)] s9).2
      = [(9, ServiceCall.ocr (ocrTextPrompt "English" none)),
         (9, ServiceCall.inpaint (buildTranslatePrompt "English" "T"))]
      ∧ ¬ ocrTextPrompt "English" (some "Character names: Tanaka, Satoru")
          = ocrTextPrompt "English" none := by
  constructor
  · decide
  · decide

/-- The base inpainting instruction that `regenerateMangaImage` starts from. -/
def regenBaseInstruction (lang : String) : String :=
  if isChinese lang then zhPrompt else regenEnBase lang

/-- The header prepended to the reference listing in the inpainting prompt. -/
def referenceHeader (lang : String) : String :=
  if isChinese lang then "\n\n参考译文:\n" else "\n\nReference Translations:\n"

theorem resKind_translate (mt lang : String) (gp : Option String) (env : Env) :
    resKind (translateMangaImage mt lang gp env).1
      = resKind (inpaintStep mt env.inpaintResult fallbackTranslateMsg) := by
  simp only [translateMangaImage]
  split
  · next url heq => rw [heq]; rfl
  · next e heq => rw [heq]; cases e <;> rfl

/-- C5: `regenerateMangaImage` makes exactly one remote call — the inpainting
call, never a recognition call; its instruction uses `editedText` verbatim,
appended only when non-empty (empty text leaves the bare instruction); and its
outcome falls in the same class (success / auth failure / item failure) as a
`translateMangaImage` call facing the same inpainting outcome, so the item
transitions by the same rule. -/
theorem C5_regenerate_behaviour (mt lang ref : String) (env : Env) :
    (regenerateMangaImage mt lang ref env).2
        = [ServiceCall.inpaint (buildRegenPrompt lang ref)]
      ∧ (∀ p, ¬ ServiceCall.ocr p ∈ (regenerateMangaImage mt lang ref env).2)
      ∧ buildRegenPrompt lang "" = regenBaseInstruction lang
      ∧ (¬ ref = "" → buildRegenPrompt lang ref
          = regenBaseInstruction lang ++ referenceHeader lang ++ ref)
      ∧ (∀ envT : Env, envT.inpaintResult = env.inpaintResult →
          resKind (regenerateMangaImage mt lang ref env).1
            = resKind (translateMangaImage mt lang none envT).1) := by
  refine ⟨rfl, ?_, ?_, ?_, ?_⟩
  · intro p hp
    simp only [regenerateMangaImage, List.mem_singleton] at hp
    exact ServiceCall.noConfusion hp
  · cases h : isChinese lang <;> simp [buildRegenPrompt, regenBaseInstruction, h]
  · intro hr
    cases h : isChinese lang <;>
      simp [buildRegenPrompt, regenBaseInstruction, referenceHeader, h, hr]
  · intro envT ht
    have hre : (regenerateMangaImage mt lang ref env).1
        = inpaintStep mt env.inpaintResult fallbackRegenerateMsg := rfl
    rw [hre, resKind_translate mt lang none envT, ht]
    exact resKind_inpaintStep_fallback mt mt env.inpaintResult
      fallbackRegenerateMsg fallbackTranslateMsg

theorem C5_regenerate_behaviour_witness :
    (regenerateMangaImage "image/png" "English" "R" env9).2
        = [ServiceCall.inpaint (buildRegenPrompt "English" "R")]
      ∧ ¬ ServiceCall.ocr "x" ∈ (regenerateMangaImage "image/png" "English" "R" env9).2
      ∧ buildRegenPrompt "English" "R"
          = regenBaseInstruction "English" ++ referenceHeader "English" ++ "R"
      ∧ resKind (regenerateMangaImage "image/png" "English" "R" env9).1
          = resKind (translateMangaImage "image/png" "English" none env9).1 :=
  ⟨(C5_regenerate_behaviour "image/png" "English" "R" env9).1,
   (C5_regenerate_behaviour "image/png" "English" "R" env9).2.1 "x",
   (C5_regenerate_behaviour "image/png" "English" "R" env9).2.2.2.1 (by decide),
   (C5_regenerate_behaviour "image/png" "English" "R" env9).2.2.2.2 env9 rfl⟩

/-- C6: over a queue of already-completed items the batch run performs zero
remote calls and leaves the state unchanged (hence re-running is idempotent);
in general the loop behaves exactly as if the completed items were removed
from the pending list — it skips them and processes only the remaining items
in their insertion order. -/
theorem C6_rerun_idempotent (lang : String) (pending : List (MangaImage × Env))
    (s : AppState)
    (hall : ∀ it ∈ s.images, it.status = Status.completed)
    (hpend : pending.map Prod.fst = s.images)
    (hproc : s.isProcessing = false) :
    processImages lang pending s = (s, [])
      ∧ ∀ (pending2 : List (MangaImage × Env)) (cur : List MangaImage),
          runLoop lang pending2 cur
            = runLoop lang
                (pending2.filter fun p => !(decide (p.1.status = Status.completed))) cur := by
  constructor
  · have hallp : ∀ p ∈ pending, p.1.status = Status.completed := by
      intro p hp
      exact hall p.1 (hpend ▸ List.mem_map_of_mem Prod.fst hp)
    cases he : s.images.isEmpty with
    | true => simp [processImages, he]
    | false =>
      have hrun := runLoop_all_completed lang pending s.images hallp
      have hg : (s.images.isEmpty || s.isProcessing) = false := by rw [he, hproc]; rfl
      simp only [processImages, hg, Bool.false_eq_true, if_false, hrun]
      cases s with
      | mk imgs k pr =>
        subst hproc
        rfl
  · exact runLoop_filter_completed lang

/-- Completed sample item (output present, no error). -/
def img6 : MangaImage :=
  ⟨6, ⟨"b.png", "image/png", "BBB"⟩, "blob:6", some "data:image/png;base64,OLD",
    some "[1] a -> b", Status.completed, none⟩

theorem C6_rerun_idempotent_witness :
    processImages "English" [(img6, env9)] ⟨[img6], true, false⟩ = (⟨[img6], true, false⟩, []) :=
  (C6_rerun_idempotent "English" [(img6, env9)] ⟨[img6], true, false⟩
    (by decide) rfl rfl).1

/-- Previously-errored sample item: error message present, no output. -/
def img7 : MangaImage :=
  ⟨7, ⟨"a.png", "image/png", "CCC"⟩, "blob:7", none, none, Status.error, some "boom"⟩

/-- C7 counterexample: re-running the batch over a previously-errored item
whose translation now succeeds leaves the stale `error` message in place next
to the new output image, so exclusivity of `outputImage`/`errorMessage` fails
for a `Completed` item. -/
theorem C7_counterexample :
    (processImages "English" [(img7, env9)] ⟨[img7], true, false⟩).1.images.all exclusiveOk
      = false := by decide

theorem regenerateHandler_images_cases (env : Env) (lang : String) (eid : Nat)
    (txt : String) (s : AppState) :
    (regenerateHandler env lang eid txt s).1.images = s.images
      ∨ (∃ newUrl, (regenerateHandler env lang eid txt s).1.images
          = updateById (updateById s.images eid toProcessing) eid (regenCompleted newUrl txt))
      ∨ (regenerateHandler env lang eid txt s).1.images
          = updateById s.images eid toProcessing
      ∨ (∃ m, (regenerateHandler env lang eid txt s).1.images
          = updateById (updateById s.images eid toProcessing) eid (toErrored m)) := by
  cases hf : s.images.find? (fun i => i.id == eid) with
  | none =>
    left
    simp [regenerateHandler, hf]
  | some img =>
    cases hres : (regenerateMangaImage img.file.fileType lang txt env).1 with
    | ok newUrl =>
      right; left
      exact ⟨newUrl, by simp [regenerateHandler, hf, hres]⟩
    | error e =>
      cases e with
      | apiKeyError =>
        right; right; left
        simp [regenerateHandler, hf, hres]
      | itemError m =>
        right; right; right
        exact ⟨m, by simp [regenerateHandler, hf, hres]⟩

/-- C7 (amended): the presence half of the invariant holds and is preserved —
a `Completed` item always has an output image and an `Error` item always has
an error message — but exclusivity does not: the complementary field is not
cleared on re-transitions (see the counterexample). -/
theorem C7_presence_amended (lang : String) (pending : List (MangaImage × Env))
    (env : Env) (eid : Nat) (txt : String) (s : AppState)
    (hs : ∀ it ∈ s.images, presenceOk it) :
    (∀ it ∈ (processImages lang pending s).1.images, presenceOk it)
      ∧ (∀ it ∈ (regenerateHandler env lang eid txt s).1.images, presenceOk it) := by
  constructor
  · intro it hit
    by_cases hg : (s.images.isEmpty || s.isProcessing) = true
    · simp only [processImages, if_pos hg] at hit
      exact hs it hit
    · simp only [processImages, if_neg hg] at hit
      exact runLoop_presence lang pending s.images hs it hit
  · rcases regenerateHandler_images_cases env lang eid txt s with h | ⟨u, h⟩ | h | ⟨m, h⟩
    · rw [h]; exact hs
    · rw [h]
      exact presenceOk_updateById _ _ _ (presenceOk_regenCompleted u txt)
        (presenceOk_updateById _ _ _ presenceOk_toProcessing hs)
    · rw [h]
      exact presenceOk_updateById _ _ _ presenceOk_toProcessing hs
    · rw [h]
      exact presenceOk_updateById _ _ _ (presenceOk_toErrored m)
        (presenceOk_updateById _ _ _ presenceOk_toProcessing hs)

theorem C7_presence_amended_witness :
    presenceOk ((processImages "English" [(img7, env9)]
      ⟨[img7], true, false⟩).1.images.headD img7) :=
  (C7_presence_amended "English" [(img7, env9)] env9 7 "" ⟨[img7], true, false⟩
    (by decide)).1 _ (by decide)

/-- C10: on a successful regeneration with empty `editedText` the stored
`ocrText` keeps its previous value (`ocrText: editingText || it.ocrText`);
only a non-empty `editedText` replaces it. -/
theorem C10_ocrtext_retention (lang : String) (env : Env) (s : AppState)
    (img : MangaImage) (d : String) (txt : String)
    (hnd : (s.images.map fun it => it.id).Nodup) (hmem : img ∈ s.images)
    (hok : inpaintOkData env.inpaintResult = some d) :
    lookupId (regenerateHandler env lang img.id "" s).1.images img.id
        = some { img with
                  status := Status.completed
                  translatedUrl := some (dataUrl img.file.fileType d)
                  ocrText := img.ocrText }
      ∧ (¬ txt = "" →
        lookupId (regenerateHandler env lang img.id txt s).1.images img.id
          = some { img with
                    status := Status.completed
                    translatedUrl := some (dataUrl img.file.fileType d)
                    ocrText := some txt }) := by
  have hres : ∀ t, (regenerateMangaImage img.file.fileType lang t env).1
      = .ok (dataUrl img.file.fileType d) :=
    fun t => regen_of_okData img.file.fileType lang t env d hok
  constructor
  · rw [regenerateHandler_found_ok env lang "" s img _ hnd hmem (hres "")]
    rfl
  · intro ht
    rw [regenerateHandler_found_ok env lang txt s img _ hnd hmem (hres txt)]
    simp [regenCompleted, toProcessing, ht]

theorem C10_ocrtext_retention_witness :
    lookupId (regenerateHandler env9 "English" 6 "" ⟨[img6], true, false⟩).1.images 6
        = some { img6 with
                  status := Status.completed
                  translatedUrl := some (dataUrl "image/png" "IMG")
                  ocrText := img6.ocrText }
      ∧ lookupId (regenerateHandler env9 "English" 6 "[2] c -> d"
            ⟨[img6], true, false⟩).1.images 6
        = some { img6 with
                  status := Status.completed
                  translatedUrl := some (dataUrl "image/png" "IMG")
                  ocrText := some "[2] c -> d" } :=
  ⟨(C10_ocrtext_retention "English" env9 ⟨[img6], true, false⟩ img6 "IMG" "x"
      (by decide) (by decide) (by decide)).1,
   (C10_ocrtext_retention "English" env9 ⟨[img6], true, false⟩ img6 "IMG" "[2] c -> d"
      (by decide) (by decide) (by decide)).2 (by decide)⟩

/-- C1: when the inpainting call for some queue item `itm` fails with the
auth-failure signal (after a prefix that raises no auth failure), the batch
run: reports the credential invalid (`hasKey` becomes false), behaves exactly
as if the suffix after `itm` were absent (so no later item is ever attempted),
records no remote call for any suffix item, leaves every suffix item
untouched, leaves `itm` merely `Processing`-marked, and keeps every prefix
item that was already or became `Completed` in its `Completed` state with its
output. -/
theorem C1_auth_halting (lang : String) (pre suf : List (MangaImage × Env))
    (itm : MangaImage) (envk : Env) (s : AppState)
    (hs : s.images = (pre ++ (itm, envk) :: suf).map Prod.fst)
    (hproc : s.isProcessing = false)
    (hnd : ((pre ++ (itm, envk) :: suf).map fun p => p.1.id).Nodup)
    (hpre : ∀ p ∈ pre, p.1.status = Status.completed ∨
      ¬ (translateMangaImage p.1.file.fileType lang none p.2).1
          = .error TransError.apiKeyError)
    (hitm : ¬ itm.status = Status.completed)
    (hauth : (translateMangaImage itm.file.fileType lang none envk).1
      = .error TransError.apiKeyError) :
    (processImages lang (pre ++ (itm, envk) :: suf) s).1.hasKey = false
      ∧ processImages lang (pre ++ (itm, envk) :: suf) s
          = processImages lang (pre ++ [(itm, envk)]) s
      ∧ (∀ e ∈ (processImages lang (pre ++ (itm, envk) :: suf) s).2,
          e.1 ∈ (pre.map fun p => p.1.id) ++ [itm.id])
      ∧ (∀ q ∈ suf,
          (∀ e ∈ (processImages lang (pre ++ (itm, envk) :: suf) s).2, ¬ e.1 = q.1.id)
          ∧ lookupId (processImages lang (pre ++ (itm, envk) :: suf) s).1.images q.1.id
              = some q.1)
      ∧ lookupId (processImages lang (pre ++ (itm, envk) :: suf) s).1.images itm.id
          = some (toProcessing itm)
      ∧ (∀ p ∈ pre,
          (p.1.status = Status.completed →
            lookupId (processImages lang (pre ++ (itm, envk) :: suf) s).1.images p.1.id
              = some p.1)
          ∧ (¬ p.1.status = Status.completed →
            ∀ out, (translateMangaImage p.1.file.fileType lang none p.2).1 = .ok out →
              lookupId (processImages lang (pre ++ (itm, envk) :: suf) s).1.images p.1.id
                = some (toCompleted out (toProcessing p.1)))) := by
  -- the guard of processImages is false: the queue is non-empty, not running
  have hne : s.images.isEmpty = false := by
    rw [hs]; cases pre <;> rfl
  have hg : (s.images.isEmpty || s.isProcessing) = false := by rw [hne, hproc]; rfl
  -- id bookkeeping from Nodup
  have hmapnd : (s.images.map fun it => it.id).Nodup := by
    rw [hs, List.map_map]
    exact hnd
  have hnd2 : ((pre.map fun p => p.1.id)
      ++ (itm.id :: suf.map fun p => p.1.id)).Nodup := by
    have : ((pre ++ (itm, envk) :: suf).map fun p => p.1.id)
        = (pre.map fun p => p.1.id) ++ (itm.id :: suf.map fun p => p.1.id) := by
      simp
    rwa [this] at hnd
  rw [List.nodup_append] at hnd2
  have hdisj := hnd2.2.2
  have hitmnotsuf : itm.id ∉ suf.map fun p => p.1.id := by
    have := hnd2.2.1
    rw [List.nodup_cons] at this
    exact this.1
  have hframe_itm : ∀ p ∈ pre, ¬ p.1.status = Status.completed → p.1.id ≠ itm.id := by
    intro p hp _ he
    exact hdisj (List.mem_map_of_mem (fun p => p.1.id) hp) (he ▸ List.mem_cons_self _ _)
  -- the two runs agree
  have hHALT := runLoop_halts_at_auth lang itm envk suf hitm hauth pre s.images hpre
  have hFLAG := runLoop_auth_flag lang itm envk hitm hauth pre s.images hpre
  have hunf : processImages lang (pre ++ (itm, envk) :: suf) s
      = ({ images := (runLoop lang (pre ++ (itm, envk) :: suf) s.images).1
           hasKey := if (runLoop lang (pre ++ (itm, envk) :: suf) s.images).2.1
             then false else s.hasKey
           isProcessing := false },
         (runLoop lang (pre ++ (itm, envk) :: suf) s.images).2.2) := by
    simp [processImages, hg]
  have hunf2 : processImages lang (pre ++ [(itm, envk)]) s
      = ({ images := (runLoop lang (pre ++ [(itm, envk)]) s.images).1
           hasKey := if (runLoop lang (pre ++ [(itm, envk)]) s.images).2.1
             then false else s.hasKey
           isProcessing := false },
         (runLoop lang (pre ++ [(itm, envk)]) s.images).2.2) := by
    simp [processImages, hg]
  refine ⟨?_, ?_, ?_, ?_, ?_, ?_⟩
  · rw [hunf, hHALT, hFLAG]
    rfl
  · rw [hunf, hunf2, hHALT]
  · intro e he
    rw [hunf, hHALT] at he
    have := runLoop_trace_ids lang (pre ++ [(itm, envk)]) s.images e he
    simpa using this
  · intro q hq
    have hqid_pre : q.1.id ∉ pre.map fun p => p.1.id := by
      intro hin
      exact hdisj hin (List.mem_cons_of_mem _
        (List.mem_map_of_mem (fun p => p.1.id) hq))
    have hqid_itm : ¬ itm.id = q.1.id := by
      intro he
      exact hitmnotsuf (he ▸ List.mem_map_of_mem (fun p => p.1.id) hq)
    constructor
    · intro e he
      rw [hunf, hHALT] at he
      have hmem := runLoop_trace_ids lang (pre ++ [(itm, envk)]) s.images e he
      intro heq
      simp only [List.map_append, List.map_cons, List.map_nil, List.mem_append,
        List.mem_cons, List.not_mem_nil, or_false] at hmem
      rcases hmem with h1 | h2
      · exact hqid_pre (heq ▸ h1)
      · exact hqid_itm (h2 ▸ heq)
    · rw [hunf, hHALT]
      have hfr : ∀ p ∈ pre ++ [(itm, envk)],
          ¬ p.1.status = Status.completed → p.1.id ≠ q.1.id := by
        intro p hp _ he
        rcases List.mem_append.mp hp with h1 | h2
        · exact hqid_pre (he ▸ List.mem_map_of_mem (fun p => p.1.id) h1)
        · rcases List.mem_singleton.mp h2 with rfl
          exact hqid_itm he
      rw [runLoop_frame lang (pre ++ [(itm, envk)]) s.images q.1.id hfr]
      apply lookupId_mem_nodup s.images hmapnd
      rw [hs]
      exact List.mem_map_of_mem Prod.fst
        (List.mem_append_right pre (List.mem_cons_of_mem _ hq))
  · rw [hunf, hHALT]
    rw [runLoop_auth_item_processing lang itm envk hitm hauth pre s.images hpre hframe_itm]
    have : lookupId s.images itm.id = some itm := by
      apply lookupId_mem_nodup s.images hmapnd
      rw [hs]
      exact List.mem_map_of_mem Prod.fst
        (List.mem_append_right pre (List.mem_cons_self _ _))
    rw [this]
    rfl
  · intro p hp
    have hkept := runLoop_kept lang pre ((itm, envk) :: suf) s.images hnd hpre p hp
    have hlk : lookupId s.images p.1.id = some p.1 := by
      apply lookupId_mem_nodup s.images hmapnd
      rw [hs]
      exact List.mem_map_of_mem Prod.fst (List.mem_append_left _ hp)
    constructor
    · intro hc
      rw [hunf]
      rw [hkept.1 hc, hlk]
    · intro hc out hout
      rw [hunf]
      rw [hkept.2 hc out hout, hlk]
      rfl

/-- First queue item of the three-item auth-halt scenario. -/
def img1C : MangaImage :=
  ⟨1, ⟨"p1.png", "image/png", "D1"⟩, "blob:1", none, none, Status.idle, none⟩

/-- Second queue item (the one whose inpainting call raises the signal). -/
def img2C : MangaImage :=
  ⟨2, ⟨"p2.png", "image/png", "D2"⟩, "blob:2", none, none, Status.idle, none⟩

/-- Third queue item (never attempted). -/
def img3C : MangaImage :=
  ⟨3, ⟨"p3.png", "image/png", "D3"⟩, "blob:3", none, none, Status.idle, none⟩

/-- Oracle whose inpainting call throws the auth-failure phrase. -/
def envAuthC : Env :=
  ⟨CallResult.err none, CallResult.err (some "Requested entity was not found")⟩

/-- App state holding the three-item queue. -/
def sC : AppState := ⟨[img1C, img2C, img3C], true, false⟩

theorem C1_auth_halting_witness :
    (processImages "English" [(img1C, env9), (img2C, envAuthC), (img3C, env9)] sC).1.hasKey
        = false
      ∧ lookupId (processImages "English"
            [(img1C, env9), (img2C, envAuthC), (img3C, env9)] sC).1.images 3 = some img3C
      ∧ lookupId (processImages "English"
            [(img1C, env9), (img2C, envAuthC), (img3C, env9)] sC).1.images 2
          = some (toProcessing img2C)
      ∧ lookupId (processImages "English"
            [(img1C, env9), (img2C, envAuthC), (img3C, env9)] sC).1.images 1
          = some (toCompleted ⟨dataUrl "image/png" "IMG", "T"⟩ (toProcessing img1C)) := by
  have h := C1_auth_halting "English" [(img1C, env9)] [(img3C, env9)] img2C envAuthC sC
    rfl rfl (by decide) (by decide) (by decide) (by decide)
  exact ⟨h.1,
    (h.2.2.2.1 (img3C, env9) (List.mem_singleton.mpr rfl)).2,
    h.2.2.2.2.1,
    (h.2.2.2.2.2 (img1C, env9) (List.mem_singleton.mpr rfl)).2 (by decide)
      ⟨dataUrl "image/png" "IMG", "T"⟩ (by decide)⟩
